import Mathlib

/-!
Verification of The-Arch encrypted vault (src/auth.py, src/crypto.py,
src/vault_core.py) against its natural-language specification.

Shallow embedding conventions:
* Bytes are `Nat`, byte strings are `List Nat`; strings are their ASCII bytes.
* `cryptography.fernet.Fernet` is modelled as an ideal authenticated cipher
  (`fernetEncrypt` / `fernetDecrypt`): a token decrypts successfully exactly
  when it is, in full, a token produced under the same key, and the modelled
  token length matches the real Fernet token length for every plaintext
  length (version byte, 8-byte timestamp, 16-byte IV, PKCS7-padded AES-CBC
  body, 32-byte HMAC, then urlsafe base64).  This length fidelity is
  load-bearing: the streaming claims hinge on token sizes.
* `bcrypt.hashpw`/`bcrypt.checkpw` are modelled as an ideal salted hash
  (the model digest determines salt and preimage).
* `hashlib.sha256` digests are modelled as an ideal collision-free digest
  (the identity on byte strings).
* Randomness (fresh keys, salts, timestamps) is passed explicitly as
  arguments; wall-clock instants are `Nat` seconds.
-/

namespace TheArch

/-- A little-endian fixed-width base-256 encoding of a natural number,
used by the model wherever Python code embeds a fixed-size field. -/
def natLEBytes : Nat → Nat → List Nat
  | 0, _ => []
  | w + 1, n => n % 256 :: natLEBytes w (n / 256)

/-- Read a little-endian base-256 byte string back as a natural number. -/
def bytesToNat : List Nat → Nat
  | [] => 0
  | b :: bs => b + 256 * bytesToNat bs

theorem length_natLEBytes (w n : Nat) : (natLEBytes w n).length = w := by
  induction w generalizing n with
  | zero => rfl
  | succ w ih => simp [natLEBytes, ih]

theorem bytesToNat_natLEBytes (w n : Nat) (h : n < 256 ^ w) :
    bytesToNat (natLEBytes w n) = n := by
  induction w generalizing n with
  | zero => simp [natLEBytes, bytesToNat]; omega
  | succ w ih =>
      have hdiv : n / 256 < 256 ^ w := by
        rw [Nat.div_lt_iff_lt_mul (by norm_num)]
        calc n < 256 ^ (w + 1) := h
        _ = 256 ^ w * 256 := by ring
      simp [natLEBytes, bytesToNat, ih _ hdiv]
      omega

/-- Big-endian 4-byte length field, as written by
`len(encrypted_file_key).to_bytes(4, 'big')` in src/crypto.py. -/
def beBytes4 (n : Nat) : List Nat :=
  [n / 2 ^ 24 % 256, n / 2 ^ 16 % 256, n / 2 ^ 8 % 256, n % 256]

/-- Read the first four bytes big-endian, as `int.from_bytes(f.read(4), 'big')`
does in src/crypto.py. -/
def readBE4 (l : List Nat) : Nat :=
  (l.take 4).foldl (fun a b => 256 * a + b) 0

theorem length_beBytes4 (n : Nat) : (beBytes4 n).length = 4 := rfl

theorem readBE4_beBytes4 (n : Nat) (rest : List Nat) (h : n < 2 ^ 32) :
    readBE4 (beBytes4 n ++ rest) = n := by
  have htake : (beBytes4 n ++ rest).take 4 = beBytes4 n := by
    rw [List.take_append_of_le_length (by simp [beBytes4])]
    simp [beBytes4]
  simp only [readBE4, htake, beBytes4, List.foldl]
  omega

/-! Ideal model of `cryptography.fernet.Fernet`.

A real Fernet token for an `n`-byte plaintext is
`urlsafe_b64encode(0x80 || time(8) || iv(16) || aes_cbc(pkcs7(plaintext)) || hmac(32))`,
whose length is `4 * ceil((57 + 16 * (n / 16 + 1)) / 3)` bytes.  The model
token stores a key fingerprint (44 bytes, the length of a Fernet key), the
plaintext length (8 bytes) and the plaintext, padded with zeros to exactly
the real token length.  Decryption succeeds precisely on a whole well-formed
token under the same key — modelling the all-or-nothing HMAC check. -/

/-- The length of the raw (pre-base64) Fernet token body for an
`n`-byte plaintext: version + timestamp + IV + PKCS7-padded CBC + HMAC. -/
def fernetRawLen (n : Nat) : Nat := 57 + 16 * (n / 16 + 1)

/-- The length of the base64 encoding (with padding) of `m` bytes. -/
def b64Len (m : Nat) : Nat := 4 * ((m + 2) / 3)

/-- The length of a Fernet token for an `n`-byte plaintext. -/
def tokenLen (n : Nat) : Nat := b64Len (fernetRawLen n)

theorem le_tokenLen (n : Nat) : 53 + n ≤ tokenLen n := by
  unfold tokenLen b64Len fernetRawLen
  have hq := Nat.div_add_mod n 16
  have hq2 : n % 16 < 16 := Nat.mod_lt n (by norm_num)
  have h3 := Nat.div_add_mod (57 + 16 * (n / 16 + 1) + 2) 3
  omega

/-- Ideal-cipher model of `Fernet(key).encrypt(plaintext)`. -/
def fernetEncrypt (k : Nat) (p : List Nat) : List Nat :=
  128 :: natLEBytes 44 k ++ natLEBytes 8 p.length ++ p
    ++ List.replicate (tokenLen p.length - (53 + p.length)) 0

/-- Ideal-cipher model of `Fernet(key).decrypt(token)`: succeeds (returning
the embedded plaintext) iff the input is, in its entirety, a token produced
under the same key; everything else raises `InvalidToken`, modelled `none`. -/
def fernetDecrypt (k : Nat) (t : List Nat) : Option (List Nat) :=
  let n := bytesToNat ((t.drop 45).take 8)
  let p := (t.drop 53).take n
  if t = fernetEncrypt k p then some p else none

theorem length_fernetEncrypt (k : Nat) (p : List Nat) :
    (fernetEncrypt k p).length = tokenLen p.length := by
  have := le_tokenLen p.length
  simp [fernetEncrypt, length_natLEBytes]
  omega

theorem fernetEncrypt_drop45 (k : Nat) (p : List Nat) :
    (fernetEncrypt k p).drop 45 =
      natLEBytes 8 p.length ++ p
        ++ List.replicate (tokenLen p.length - (53 + p.length)) 0 := by
  show (128 :: (natLEBytes 44 k ++ (natLEBytes 8 p.length ++ p
      ++ List.replicate (tokenLen p.length - (53 + p.length)) 0))).drop 45 = _
  rw [List.drop_succ_cons, List.drop_append_of_le_length (by simp [length_natLEBytes])]
  simp [length_natLEBytes]

theorem fernetEncrypt_drop53 (k : Nat) (p : List Nat) :
    (fernetEncrypt k p).drop 53 =
      p ++ List.replicate (tokenLen p.length - (53 + p.length)) 0 := by
  have h : (fernetEncrypt k p).drop 53 = ((fernetEncrypt k p).drop 45).drop 8 := by
    rw [List.drop_drop]
  rw [h, fernetEncrypt_drop45, List.append_assoc,
    List.drop_append_of_le_length (by simp [length_natLEBytes])]
  simp [length_natLEBytes]

theorem fernetDecrypt_fernetEncrypt (k : Nat) (p : List Nat)
    (h : p.length < 256 ^ 8) :
    fernetDecrypt k (fernetEncrypt k p) = some p := by
  have hn : bytesToNat (((fernetEncrypt k p).drop 45).take 8) = p.length := by
    rw [fernetEncrypt_drop45, List.append_assoc,
      List.take_append_of_le_length (by simp [length_natLEBytes]),
      List.take_of_length_le (by simp [length_natLEBytes]),
      bytesToNat_natLEBytes _ _ h]
  have hp : ((fernetEncrypt k p).drop 53).take p.length = p := by
    rw [fernetEncrypt_drop53, List.take_append_of_le_length (le_refl _),
      List.take_length]
  simp [fernetDecrypt, hn, hp]

theorem fernetDecrypt_eq_some {k : Nat} {t p : List Nat}
    (h : fernetDecrypt k t = some p) : t = fernetEncrypt k p := by
  unfold fernetDecrypt at h
  by_cases hc : t = fernetEncrypt k
      (((t.drop 53)).take (bytesToNat ((t.drop 45).take 8)))
  · rw [if_pos hc] at h
    cases h
    exact hc
  · rw [if_neg hc] at h
    cases h

/-! File-level encryption layer, from src/crypto.py
(`SecureCryptoManager`).  `mk` is the master key, `fk` the fresh per-file
key (a 44-byte Fernet key, modelled by a natural below `256 ^ 44`). -/

/-- The 10 MiB threshold that selects streaming mode, src/crypto.py
lines 168 and 322. -/
def sizeThreshold : Nat := 10 * 1024 * 1024

/-- The 64 KiB streaming chunk size, `self._chunk_size`, src/crypto.py
line 78. -/
def chunkSize : Nat := 64 * 1024

/-- Split a byte string into consecutive `cs`-byte chunks (last one may be
short), exactly as the `infile.read(self._chunk_size)` loop of
`encrypt_large_file` consumes its input. -/
def chunksOf (cs : Nat) (l : List Nat) : List (List Nat) :=
  if h : cs = 0 ∨ l = [] then []
  else l.take cs :: chunksOf cs (l.drop cs)
termination_by l.length
decreasing_by
  push_neg at h
  have hl : l.length ≠ 0 := fun hz => h.2 (List.eq_nil_of_length_eq_zero hz)
  simp only [List.length_drop]
  omega

/-- The header both encryption paths write first: the 4-byte big-endian
length of the wrapped per-file key, then the per-file key encrypted under
the master key (`encrypt_data(file_key)`), src/crypto.py lines 198-201
and 261-262. -/
def fileHeader (mk fk : Nat) : List Nat :=
  beBytes4 (fernetEncrypt mk (natLEBytes 44 fk)).length
    ++ fernetEncrypt mk (natLEBytes 44 fk)

/-- Model of `SecureCryptoManager.encrypt_large_file` (src/crypto.py lines
235-294): header, then each 64 KiB plaintext chunk independently sealed as
one Fernet token, tokens concatenated with no framing between them. -/
def encryptLargeFile (mk fk : Nat) (p : List Nat) : List Nat :=
  fileHeader mk fk ++ ((chunksOf chunkSize p).map (fernetEncrypt fk)).flatten

/-- Model of `SecureCryptoManager.encrypt_file` (src/crypto.py lines
161-233): dispatches on the plaintext size; single-shot seal otherwise. -/
def encryptFile (mk fk : Nat) (p : List Nat) : List Nat :=
  if sizeThreshold < p.length then encryptLargeFile mk fk p
  else fileHeader mk fk ++ fernetEncrypt fk p

/-- The read loop of `decrypt_large_file` (src/crypto.py lines 399-414):
repeatedly `infile.read(self._chunk_size + 100)` and Fernet-decrypt each
read slice as if it were one whole token; any decryption failure raises
`ValueError`. -/
def streamDecrypt (fk : Nat) (body : List Nat) : Except String (List Nat) :=
  if h : body = [] then .ok []
  else
    match fernetDecrypt fk (body.take (chunkSize + 100)) with
    | none => .error "ValueError: decrypt"
    | some d =>
        match streamDecrypt fk (body.drop (chunkSize + 100)) with
        | .error e => .error e
        | .ok rest => .ok (d ++ rest)
termination_by body.length
decreasing_by
  have hl : body.length ≠ 0 := fun hz => h (List.eq_nil_of_length_eq_zero hz)
  simp only [List.length_drop]
  omega

/-- Model of `SecureCryptoManager.decrypt_large_file` (src/crypto.py lines
374-426): parse the 4-byte key length and the wrapped per-file key, unwrap
it under the master key, then run the streaming loop on the remainder. -/
def decryptLargeFile (mk : Nat) (c : List Nat) : Except String (List Nat) :=
  let keyLen := readBE4 (c.take 4)
  let encKey := (c.drop 4).take keyLen
  let body := c.drop (4 + keyLen)
  match fernetDecrypt mk encKey with
  | none => .error "InvalidToken: file key"
  | some kb => streamDecrypt (bytesToNat kb) body

/-- Model of `SecureCryptoManager.decrypt_file` (src/crypto.py lines
315-372): dispatches on the CIPHERTEXT size (the size of the stored vault
file), single-shot open otherwise. -/
def decryptFile (mk : Nat) (c : List Nat) : Except String (List Nat) :=
  if sizeThreshold < c.length then decryptLargeFile mk c
  else
    let keyLen := readBE4 (c.take 4)
    let encKey := (c.drop 4).take keyLen
    let rest := c.drop (4 + keyLen)
    match fernetDecrypt mk encKey with
    | none => .error "InvalidToken: file key"
    | some kb =>
        match fernetDecrypt (bytesToNat kb) rest with
        | none => .error "InvalidToken: data"
        | some p => .ok p

theorem chunksOf_flatten (cs : Nat) (hcs : 0 < cs) (l : List Nat) :
    (chunksOf cs l).flatten = l := by
  have H : ∀ n (l : List Nat), l.length ≤ n → (chunksOf cs l).flatten = l := by
    intro n
    induction n with
    | zero =>
        intro l hl
        have hnil : l = [] := by cases l <;> simp_all
        rw [hnil, chunksOf]
        simp
    | succ n ih =>
        intro l hl
        by_cases hnil : l = []
        · rw [hnil, chunksOf]
          simp
        · rw [chunksOf, dif_neg (by simp [hnil]; omega)]
          rw [List.flatten_cons, ih (l.drop cs)
            (by
              have hz : l.length ≠ 0 := fun hz => hnil (List.eq_nil_of_length_eq_zero hz)
              simp only [List.length_drop]
              omega)]
          exact List.take_append_drop cs l
  exact H l.length l (le_refl _)

theorem tokenLen_44 : tokenLen 44 = 140 := rfl

theorem length_fileHeader (mk fk : Nat) : (fileHeader mk fk).length = 144 := by
  simp [fileHeader, length_fernetEncrypt, length_natLEBytes, beBytes4, tokenLen_44]

/-- Linear lower bound on the token length: each token is at least a third
longer than its plaintext (base64 expansion of the authenticated body). -/
theorem tokenLen_lb (x : Nat) : 232 + 4 * x ≤ 3 * tokenLen x := by
  unfold tokenLen b64Len fernetRawLen
  have hq := Nat.div_add_mod x 16
  have hq2 : x % 16 < 16 := Nat.mod_lt x (by norm_num)
  have h3 := Nat.div_add_mod (57 + 16 * (x / 16 + 1) + 2) 3
  omega

/-- Fernet rejects any strict leading slice of a token: the parsed length
field still announces the full plaintext, so the re-encryption check cannot
match a shorter input.  This is the ideal-model counterpart of the HMAC
verification failing on truncated tokens. -/
theorem fernetDecrypt_take_eq_none (k k' : Nat) (p : List Nat) (m : Nat)
    (hm : 53 ≤ m) (hlt : m < tokenLen p.length) (hp8 : p.length < 256 ^ 8) :
    fernetDecrypt k' ((fernetEncrypt k p).take m) = none := by
  set t := (fernetEncrypt k p).take m with ht
  have htlen : t.length = m := by
    rw [ht, List.length_take, length_fernetEncrypt]
    omega
  have hn : bytesToNat ((t.drop 45).take 8) = p.length := by
    have h1 : t.drop 45 = ((fernetEncrypt k p).drop 45).take (m - 45) := by
      rw [ht, List.drop_take]
    have h2 : (t.drop 45).take 8 = ((fernetEncrypt k p).drop 45).take 8 := by
      rw [h1, List.take_take]
      congr 1
      omega
    rw [h2, fernetEncrypt_drop45, List.append_assoc,
      List.take_append_of_le_length (by simp [length_natLEBytes]),
      List.take_of_length_le (by simp [length_natLEBytes]),
      bytesToNat_natLEBytes _ _ hp8]
  unfold fernetDecrypt
  simp only [hn]
  rw [if_neg]
  intro hcontra
  have hlen2 : t.length = tokenLen ((t.drop 53).take p.length).length := by
    conv_lhs => rw [hcontra]
    rw [length_fernetEncrypt]
  have hd53 : (t.drop 53).length = m - 53 := by
    rw [List.length_drop, htlen]
  have hplen : ((t.drop 53).take p.length).length = min p.length (m - 53) := by
    rw [List.length_take, hd53]
  rw [htlen, hplen] at hlen2
  rcases Nat.le_total p.length (m - 53) with hle | hle
  · rw [min_eq_left hle] at hlen2
    omega
  · rw [min_eq_right hle] at hlen2
    have := tokenLen_lb (m - 53)
    omega

/-- The first streaming read misparses: when the body starts with a token
longer than the 64 KiB + 100 byte read size, the loop fails immediately. -/
theorem streamDecrypt_long_token (fk k : Nat) (p rest : List Nat)
    (hlong : chunkSize + 100 < tokenLen p.length) (hp8 : p.length < 256 ^ 8) :
    streamDecrypt fk (fernetEncrypt k p ++ rest) = .error "ValueError: decrypt" := by
  have hne : fernetEncrypt k p ++ rest ≠ [] := by
    simp [fernetEncrypt]
  rw [streamDecrypt, dif_neg hne]
  have htake : (fernetEncrypt k p ++ rest).take (chunkSize + 100)
      = (fernetEncrypt k p).take (chunkSize + 100) := by
    rw [List.take_append_of_le_length]
    rw [length_fernetEncrypt]
    omega
  rw [htake, fernetDecrypt_take_eq_none k fk p (chunkSize + 100)
    (by norm_num [chunkSize]) hlong hp8]

theorem length_encryptLargeFile_ge (mk fk : Nat) (p : List Nat) :
    144 + p.length ≤ (encryptLargeFile mk fk p).length := by
  have hsum : p.length ≤ (((chunksOf chunkSize p).map (fernetEncrypt fk)).flatten).length := by
    have h1 : p.length = ((chunksOf chunkSize p).map List.length).sum := by
      conv_lhs => rw [← chunksOf_flatten chunkSize (by norm_num [chunkSize]) p]
      rw [List.length_flatten]
    rw [List.length_flatten, List.map_map, h1]
    apply List.sum_le_sum
    intro c _
    simp only [Function.comp_apply, length_fernetEncrypt]
    have := le_tokenLen c.length
    omega
  simp only [encryptLargeFile, List.length_append, length_fileHeader]
  omega

/-- Parsing the file header succeeds and recovers the per-file key, after
which `decrypt_large_file` is exactly the streaming loop on the body. -/
theorem decryptLargeFile_header (mk fk : Nat) (hfk : fk < 256 ^ 44)
    (body : List Nat) :
    decryptLargeFile mk (fileHeader mk fk ++ body) = streamDecrypt fk body := by
  set EK := fernetEncrypt mk (natLEBytes 44 fk) with hEK
  have hEKlen : EK.length = 140 := by
    rw [hEK, length_fernetEncrypt, length_natLEBytes, tokenLen_44]
  have hblob : fileHeader mk fk ++ body = beBytes4 140 ++ (EK ++ body) := by
    rw [fileHeader, ← hEK, hEKlen, List.append_assoc]
  have h1 : readBE4 ((beBytes4 140 ++ (EK ++ body)).take 4) = 140 := by
    rw [List.take_append_of_le_length (by simp [beBytes4]),
      List.take_of_length_le (by simp [beBytes4])]
    have := readBE4_beBytes4 140 [] (by norm_num)
    simpa using this
  have h2 : (beBytes4 140 ++ (EK ++ body)).drop 4 = EK ++ body := by
    have : (4 : Nat) = (beBytes4 140).length := by simp [beBytes4]
    rw [this, List.drop_left]
  have h3 : (EK ++ body).take 140 = EK := by
    rw [← hEKlen, List.take_left]
  have h4 : (beBytes4 140 ++ (EK ++ body)).drop (4 + 140) = body := by
    rw [← List.drop_drop, h2, ← hEKlen, List.drop_left]
  have h5 : fernetDecrypt mk EK = some (natLEBytes 44 fk) :=
    fernetDecrypt_fernetEncrypt mk (natLEBytes 44 fk)
      (by rw [length_natLEBytes]; norm_num)
  have h6 : bytesToNat (natLEBytes 44 fk) = fk := bytesToNat_natLEBytes _ _ hfk
  rw [hblob]
  simp only [decryptLargeFile, h1, h2, h3, h4, h5, h6]

/-- Streaming decryption of a streaming-encrypted payload of at least one
full chunk always fails: the first `decrypt_large_file` read (64 KiB + 100
bytes) is a strict leading slice of the first 87 480-byte token. -/
theorem decryptFile_encryptFile_large (mk fk : Nat) (p : List Nat)
    (hfk : fk < 256 ^ 44) (hbig : sizeThreshold < p.length) :
    decryptFile mk (encryptFile mk fk p) = .error "ValueError: decrypt" := by
  have hcs : chunkSize ≤ p.length := by
    have : chunkSize ≤ sizeThreshold := by norm_num [chunkSize, sizeThreshold]
    omega
  have henc : encryptFile mk fk p = encryptLargeFile mk fk p := by
    rw [encryptFile, if_pos hbig]
  have hclen : sizeThreshold < (encryptLargeFile mk fk p).length := by
    have := length_encryptLargeFile_ge mk fk p
    omega
  rw [henc, decryptFile, if_pos hclen, encryptLargeFile,
    decryptLargeFile_header mk fk hfk]
  have hpne : p ≠ [] := by
    intro hz
    rw [hz] at hcs
    norm_num [chunkSize] at hcs
  have hsplit : chunksOf chunkSize p
      = p.take chunkSize :: chunksOf chunkSize (p.drop chunkSize) := by
    rw [chunksOf, dif_neg (by simp [hpne, chunkSize])]
  rw [hsplit, List.map_cons, List.flatten_cons]
  have hlen1 : (p.take chunkSize).length = chunkSize := by
    simp only [List.length_take]
    omega
  apply streamDecrypt_long_token
  · rw [hlen1]
    norm_num [chunkSize, tokenLen, b64Len, fernetRawLen]
  · rw [hlen1]
    norm_num [chunkSize]

/-- Sanity check that the model is not rigged to fail: when both the
plaintext and the resulting ciphertext stay below the 10 MiB threshold
(so both sides take the single-shot path), the round trip is exact. -/
theorem decryptFile_encryptFile_small (mk fk : Nat) (p : List Nat)
    (hfk : fk < 256 ^ 44) (hp8 : p.length < 256 ^ 8)
    (hsmall : p.length ≤ sizeThreshold)
    (hcsmall : 144 + tokenLen p.length ≤ sizeThreshold) :
    decryptFile mk (encryptFile mk fk p) = .ok p := by
  have henc : encryptFile mk fk p = fileHeader mk fk ++ fernetEncrypt fk p := by
    rw [encryptFile, if_neg (by omega)]
  have hclen : ¬ sizeThreshold < (fileHeader mk fk ++ fernetEncrypt fk p).length := by
    simp only [List.length_append, length_fileHeader, length_fernetEncrypt]
    omega
  set EK := fernetEncrypt mk (natLEBytes 44 fk) with hEK
  have hEKlen : EK.length = 140 := by
    rw [hEK, length_fernetEncrypt, length_natLEBytes, tokenLen_44]
  have hblob : fileHeader mk fk ++ fernetEncrypt fk p
      = beBytes4 140 ++ (EK ++ fernetEncrypt fk p) := by
    rw [fileHeader, ← hEK, hEKlen, List.append_assoc]
  have h1 : readBE4 ((beBytes4 140 ++ (EK ++ fernetEncrypt fk p)).take 4) = 140 := by
    rw [List.take_append_of_le_length (by simp [beBytes4]),
      List.take_of_length_le (by simp [beBytes4])]
    have := readBE4_beBytes4 140 [] (by norm_num)
    simpa using this
  have h2 : (beBytes4 140 ++ (EK ++ fernetEncrypt fk p)).drop 4
      = EK ++ fernetEncrypt fk p := by
    have h4' : (4 : Nat) = (beBytes4 140).length := by simp [beBytes4]
    rw [h4', List.drop_left]
  have h3 : (EK ++ fernetEncrypt fk p).take 140 = EK := by
    rw [← hEKlen, List.take_left]
  have h4 : (beBytes4 140 ++ (EK ++ fernetEncrypt fk p)).drop (4 + 140)
      = fernetEncrypt fk p := by
    rw [← List.drop_drop, h2, ← hEKlen, List.drop_left]
  have h5 : fernetDecrypt mk EK = some (natLEBytes 44 fk) :=
    fernetDecrypt_fernetEncrypt mk (natLEBytes 44 fk)
      (by rw [length_natLEBytes]; norm_num)
  have h6 : bytesToNat (natLEBytes 44 fk) = fk := bytesToNat_natLEBytes _ _ hfk
  have h7 : fernetDecrypt fk (fernetEncrypt fk p) = some p :=
    fernetDecrypt_fernetEncrypt fk p hp8
  have hdis : ¬ sizeThreshold < (beBytes4 140 ++ (EK ++ fernetEncrypt fk p)).length := by
    simp only [List.length_append, length_fernetEncrypt, hEKlen, beBytes4,
      List.length_cons, List.length_nil]
    omega
  rw [henc, hblob]
  simp only [decryptFile, if_neg hdis, h1, h2, h3, h4, h5, h6, h7]

/-! Vault file layer, from src/vault_core.py: the pieces of
`_transactional_add_file`, `_transactional_extract_file` and
`verify_integrity` that move bytes. -/

/-- Ideal model of the `hashlib.sha256` content digest computed by
`calculate_file_hash` (src/crypto.py lines 451-463): a collision-free
digest, modelled as the identity on byte strings. -/
def sha256Model (l : List Nat) : List Nat := l

/-- The per-file record `_transactional_add_file` stores: the ciphertext
written by `encrypt_file`/`encrypt_large_file` and the plaintext hash
(src/vault_core.py lines 499-521). -/
structure VFile where
  blob : List Nat
  hash : List Nat
deriving Repr, DecidableEq

/-- Model of `_transactional_add_file` for a root-folder file: encrypt the
plaintext (dispatching on the 10 MiB threshold exactly as lines 500-506 do)
and record the plaintext hash. -/
def addFileModel (mk fk : Nat) (p : List Nat) : VFile :=
  ⟨encryptFile mk fk p, sha256Model p⟩

/-- Model of `_transactional_extract_file` (src/vault_core.py lines
550-588): decrypt the stored ciphertext, then compare the recomputed
plaintext hash with the stored one; a mismatch is a fatal error. -/
def extractFileModel (mk : Nat) (f : VFile) : Except String (List Nat) :=
  match decryptFile mk f.blob with
  | .error e => .error e
  | .ok p => if sha256Model p = f.hash then .ok p else .error "IntegrityViolation"

/-- Model of `verify_integrity` (src/vault_core.py lines 684-717) over the
root-folder files: decrypt each stored ciphertext and rehash; a decryption
error or hash mismatch appends an issue, and all files are checked. -/
def verifyIntegrityModel (mk : Nat) : List VFile → List String
  | [] => []
  | f :: rest =>
      (match decryptFile mk f.blob with
       | .error _ => ["integrity check error"]
       | .ok p => if sha256Model p = f.hash then [] else ["hash mismatch"])
        ++ verifyIntegrityModel mk rest

/-- A 20 MiB zero plaintext, the concrete failing input used for the
streaming-mode claims. -/
def p20MiB : List Nat := List.replicate (20 * 1024 * 1024) 0

theorem decryptFile_p20MiB_error :
    decryptFile 5 (encryptFile 5 7 p20MiB) = .error "ValueError: decrypt" := by
  apply decryptFile_encryptFile_large
  · norm_num
  · simp only [p20MiB, List.length_replicate]
    norm_num [sizeThreshold]

theorem addFileModel_blob (mk fk : Nat) (p : List Nat) :
    (addFileModel mk fk p).blob = encryptFile mk fk p := rfl

theorem extractFileModel_error (mk : Nat) (f : VFile) (e : String)
    (h : decryptFile mk f.blob = .error e) :
    extractFileModel mk f = .error e := by
  unfold extractFileModel
  rw [h]

theorem verifyIntegrityModel_one_error (mk : Nat) (f : VFile) (e : String)
    (h : decryptFile mk f.blob = .error e) :
    verifyIntegrityModel mk [f] = ["integrity check error"] := by
  unfold verifyIntegrityModel
  rw [h]
  simp [verifyIntegrityModel]

/-- C1: the claim asserts that a file above the 10 MiB streaming threshold
round-trips through add-then-extract byte-identically and that
`verify_integrity` then reports no issue for it.  The code cannot do
either: `decrypt_large_file` re-slices the stored token stream at
64 KiB + 100 byte boundaries, which never coincide with the 87 480-byte
Fernet tokens `encrypt_large_file` wrote, so extraction of a 20 MiB file
fails with `ValueError` and the whole-store integrity check reports an
issue for that file (evaluated here at a 20 MiB zero file under master key
5 and file key 7). -/
theorem c1_streaming_add_extract_fails :
    extractFileModel 5 (addFileModel 5 7 p20MiB) = .error "ValueError: decrypt"
      ∧ verifyIntegrityModel 5 [addFileModel 5 7 p20MiB] = ["integrity check error"] := by
  have hb : decryptFile 5 (addFileModel 5 7 p20MiB).blob = .error "ValueError: decrypt" := by
    rw [addFileModel_blob]
    exact decryptFile_p20MiB_error
  exact ⟨extractFileModel_error 5 _ _ hb, verifyIntegrityModel_one_error 5 _ _ hb⟩

/-- C4: the claim asserts `open(seal(P, k), k) = P` for every plaintext in
whichever mode the size threshold selects.  Evaluated at a 20 MiB zero
plaintext (streaming mode on both sides), decryption fails with
`ValueError` instead of returning the plaintext, because the streaming
decryptor reads 64 KiB + 100 bytes at a time while the encryptor wrote
87 480-byte tokens with no framing between them. -/
theorem c4_streaming_roundtrip_fails :
    decryptFile 5 (encryptFile 5 7 p20MiB) = .error "ValueError: decrypt" :=
  decryptFile_p20MiB_error

/-! Authentication layer, from src/auth.py (`RecoveryProtection` and
`SecureAuthManager`).  A single credential identifier is modelled, so the
lockout state is just that identifier's list of attempt timestamps
(absent-from-dict and present-with-empty-list both modelled by `[]`). -/

/-- Lockout window in seconds, `self.lockout_time`, src/auth.py line 24. -/
def lockoutTime : Nat := 600

/-- Failed-attempt threshold, `self.max_attempts`, src/auth.py line 23. -/
def maxAttempts : Nat := 3

/-- Model of `RecoveryProtection.record_attempt` (src/auth.py lines 28-38):
append the current timestamp; if the history then exceeds twice the
threshold, keep only the last `max_attempts` entries
(`self.failed_attempts[user_id][-self.max_attempts:]`). -/
def recordAttempt (now : Nat) (st : List Nat) : List Nat :=
  let l := st ++ [now]
  if maxAttempts * 2 < l.length then l.drop (l.length - maxAttempts) else l

/-- Model of `RecoveryProtection.is_locked_out` (lines 40-52): locked iff
at least `max_attempts` recorded attempts fall within the lockout window.
Python's `time.time() - t < self.lockout_time` maps to `now - t < 600` on
`Nat` instants (a not-yet-elapsed timestamp counts in both). -/
def isLockedOut (now : Nat) (st : List Nat) : Bool :=
  decide (maxAttempts ≤ (st.filter (fun t => decide (now - t < lockoutTime))).length)

/-- Minimum of a timestamp list, `min(attempts)` on a non-empty list. -/
def minT : List Nat → Nat
  | [] => 0
  | [a] => a
  | a :: b :: rest => min a (minT (b :: rest))

/-- Model of `RecoveryProtection.get_remaining_time` (lines 54-68): note
the code measures from the oldest RETAINED attempt (`min(attempts)`), not
the oldest attempt inside the window, and clamps at zero
(`max(0, int(remaining))`). -/
def getRemainingTime (now : Nat) (st : List Nat) : Nat :=
  if st = [] then 0
  else ((lockoutTime : Int) - ((now : Int) - (minT st : Int))).toNat

/-- Model of `RecoveryProtection.clear_attempts` (lines 70-74). -/
def clearAttempts (_st : List Nat) : List Nat := []

/-- Ideal model of `bcrypt.hashpw(data, bcrypt.gensalt())`: a
collision-free salted digest, modelled by embedding the 16-byte salt `s`
and the exact input. -/
def bcryptHashpw (d : List Nat) (s : Nat) : List Nat := natLEBytes 16 s ++ d

/-- Ideal model of `bcrypt.checkpw(data, digest)`: recompute with the salt
embedded in the digest and compare. -/
def bcryptCheckpw (d h : List Nat) : Bool :=
  decide (16 ≤ h.length ∧ h.drop 16 = d)

theorem bcryptCheckpw_hashpw (d d' : List Nat) (s : Nat) :
    bcryptCheckpw d (bcryptHashpw d' s) = decide (d' = d) := by
  have hdrop : (bcryptHashpw d' s).drop 16 = d' := by
    rw [bcryptHashpw, List.drop_append_of_le_length (by simp [length_natLEBytes])]
    simp [length_natLEBytes]
  simp [bcryptCheckpw, bcryptHashpw, hdrop, length_natLEBytes]

/-- Ideal model of `_derive_key_from_password` (src/auth.py lines 259-269),
the single-secret PBKDF2-SHA256 profile: a deterministic key derivation,
modelled as an injective pairing of password and salt bytes; the tag bit 0
keeps it distinct from the recovery profile. -/
def deriveKeyFromPassword (pw salt : List Nat) : Nat :=
  2 * Nat.pair (bytesToNat pw) (bytesToNat salt)

/-- Ideal model of `_derive_strong_recovery_key` (lines 244-257), the
multi-secret SHA384-then-PBKDF2-SHA512 profile applied to the concatenated
answer string; tag bit 1. -/
def deriveStrongRecoveryKey (answers salt : List Nat) : Nat :=
  2 * Nat.pair (bytesToNat answers) (bytesToNat salt) + 1

/-- ASCII bytes of the `NO_RECOVERY_SETUP` marker (src/auth.py line 231). -/
def markerBytes : List Nat :=
  [78, 79, 95, 82, 69, 67, 79, 86, 69, 82, 89, 95, 83, 69, 84, 85, 80]

/-- Byte-substring test, Python's `needle in haystack` on bytes. -/
def containsSeq (needle hay : List Nat) : Bool :=
  (List.range (hay.length + 1)).any (fun i => needle.isPrefixOf (hay.drop i))

/-- ASCII lowercasing of one byte, as `str.lower` acts on ASCII letters. -/
def toLowerByte (b : Nat) : Nat := if 65 ≤ b ∧ b ≤ 90 then b + 32 else b

/-- ASCII lowercasing of a byte string (`answer.lower().encode()`). -/
def lowerBytes (l : List Nat) : List Nat := l.map toLowerByte

/-- One stored recovery question: question text, `bcrypt` digest of
answer-plus-salt, and the 16-byte per-question salt (src/auth.py lines
190-200 and 414-424). -/
structure QRecord where
  question : List Nat
  answerHash : List Nat
  salt : List Nat
deriving Repr, DecidableEq

/-- The enrollment of one question in `create_master_password` /
`setup_recovery_questions`: `answer_with_salt = answer.encode() + answer_salt`
is bcrypt-hashed — the answer is NOT lowercased at enrollment. -/
def mkQRecord (question answer answerSalt : List Nat) (bsalt : Nat) : QRecord :=
  ⟨question, bcryptHashpw (answer ++ answerSalt) bsalt, answerSalt⟩

/-- One enrollment input: a question/answer pair plus the randomness
(16-byte answer salt, bcrypt salt) consumed for it. -/
structure QSetup where
  question : List Nat
  answer : List Nat
  answerSalt : List Nat
  bcryptSalt : Nat
deriving Repr, DecidableEq

/-- The stored question list produced by `setup_recovery_questions`. -/
def setupRecoveryQuestions (l : List QSetup) : List QRecord :=
  l.map (fun qa => mkQRecord qa.question qa.answer qa.answerSalt qa.bcryptSalt)

/-- The persisted configuration record of `SecureAuthManager`
(`self.config`, src/auth.py lines 202-214), with the byte-string fields the
claims touch. -/
structure AuthConfig where
  masterPasswordHash : List Nat
  encryptedMasterKey : List Nat
  encryptedRecoveryKey : List Nat
  encryptedMasterPasswordEncoder : List Nat
  encryptedRecoveryEncoder : List Nat
  recoveryQuestions : List QRecord
  passwordHint : List Nat
deriving Repr, DecidableEq

/-- Model of `get_master_key` (src/auth.py lines 283-313): bcrypt-verify
the password, split the stored salt from the wrapped encoder key, derive
the password key, unwrap the encoder key, unwrap the master key; every
failure collapses to a `ValueError`. -/
def getMasterKey (cfg : AuthConfig) (pw : List Nat) : Except String (List Nat) :=
  if bcryptCheckpw pw cfg.masterPasswordHash = false then
    .error "ValueError: wrong master password"
  else
    let salt := cfg.encryptedMasterPasswordEncoder.take 32
    let encData := cfg.encryptedMasterPasswordEncoder.drop 32
    match fernetDecrypt (deriveKeyFromPassword pw salt) encData with
    | none => .error "ValueError: bad data"
    | some encoderKey =>
        match fernetDecrypt (bytesToNat encoderKey) cfg.encryptedMasterKey with
        | none => .error "ValueError: bad data"
        | some mk => .ok mk

/-- Model of `change_master_password` (src/auth.py lines 365-395): unwrap
the master key via the old password, generate a new encoder key
(`newEk`), re-wrap the unchanged master key under it, wrap the new encoder
key under a key derived from the new password and a fresh 32-byte salt
(`newSalt`), re-hash the password, and update ONLY those fields plus the
hint. -/
def changeMasterPassword (cfg : AuthConfig) (oldPw newPw newHint : List Nat)
    (newEk : List Nat) (newSalt : List Nat) (newBSalt : Nat) :
    Except String (AuthConfig × List Nat) :=
  match getMasterKey cfg oldPw with
  | .error e => .error e
  | .ok mk =>
      .ok ({ cfg with
              masterPasswordHash := bcryptHashpw newPw newBSalt
              encryptedMasterKey := fernetEncrypt (bytesToNat newEk) mk
              encryptedMasterPasswordEncoder :=
                newSalt ++ fernetEncrypt (deriveKeyFromPassword newPw newSalt) newEk
              passwordHint := newHint }, mk)

/-- Errors `recover_master_key` raises: `PermissionError` with the
remaining lockout seconds, or the unified `ValueError`. -/
inductive RecoveryError where
  | locked (remaining : Nat)
  | badAnswers
deriving Repr, DecidableEq

/-- Result sum for `recover_master_key`. -/
inductive RecResult where
  | ok (mk : List Nat)
  | err (e : RecoveryError)
deriving Repr, DecidableEq

/-- Boolean success test on a `RecResult`. -/
def RecResult.isOk : RecResult → Bool
  | .ok _ => true
  | .err _ => false

/-- Outcome of one `recover_master_key` call: the result, the credential
identifier's attempt list afterwards, and the enforced `time.sleep`
duration in seconds (`elapsed` is the wall-clock time the attempt body
itself consumed). -/
structure RecoverOutcome where
  result : RecResult
  attempts : List Nat
  slept : Nat
deriving Repr, DecidableEq

/-- Model of `recover_master_key` (src/auth.py lines 315-363).

Control flow from the source: if locked out, raise `PermissionError`
immediately (no attempt recorded, no delay).  Inside the `try`: a
`NO_RECOVERY_SETUP` marker in the stored recovery encoder records an
attempt (line 332) and raises `ValueError`, which the generic handler
catches, recording a SECOND attempt (line 354) and enforcing the 1-second
floor (lines 357-360).  Otherwise split salt/ciphertext, derive the
recovery key from the concatenated answers, unwrap the encoder key, unwrap
the master key; any failure records one attempt and enforces the floor; on
success the attempt history is cleared and NO floor is enforced. -/
def recoverMasterKey (cfg : AuthConfig) (st : List Nat) (now elapsed : Nat)
    (answers : List (List Nat)) : RecoverOutcome :=
  if isLockedOut now st then
    ⟨.err (.locked (getRemainingTime now st)), st, 0⟩
  else if containsSeq markerBytes cfg.encryptedRecoveryEncoder then
    ⟨.err .badAnswers, recordAttempt now (recordAttempt now st), 1 - elapsed⟩
  else
    let salt := cfg.encryptedRecoveryEncoder.take 32
    let encData := cfg.encryptedRecoveryEncoder.drop 32
    match fernetDecrypt (deriveStrongRecoveryKey answers.flatten salt) encData with
    | none => ⟨.err .badAnswers, recordAttempt now st, 1 - elapsed⟩
    | some recEncoderKey =>
        match fernetDecrypt (bytesToNat recEncoderKey) cfg.encryptedRecoveryKey with
        | none => ⟨.err .badAnswers, recordAttempt now st, 1 - elapsed⟩
        | some mk => ⟨.ok mk, clearAttempts st, 0⟩

/-- Model of `verify_recovery_answers` (src/auth.py lines 487-532): a
length mismatch returns `False` before the lockout check; a locked-out
identifier returns `False`; otherwise each supplied answer is LOWERCASED
(`answer.lower().encode()`, line 510), salted with the stored per-question
salt and bcrypt-checked; a failing set records one attempt.  (The constant
0.5 s delay of lines 522-526 applies to both outcomes and is not modelled.)
Returns the boolean result and the attempt list afterwards. -/
def verifyRecoveryAnswers (cfg : AuthConfig) (st : List Nat) (now : Nat)
    (answers : List (List Nat × List Nat)) : Bool × List Nat :=
  if answers.length ≠ cfg.recoveryQuestions.length then (false, st)
  else if isLockedOut now st then (false, st)
  else
    let allOk := (answers.zip cfg.recoveryQuestions).all
      (fun aq => bcryptCheckpw (lowerBytes aq.1.2 ++ aq.2.salt) aq.2.answerHash)
    if allOk then (true, st) else (false, recordAttempt now st)

/-- A recovery path as enrolled by `setup_recovery_questions` /
`create_master_password`: fresh 32-byte salt, recovery encoder key wrapped
under the answers-derived key, master key wrapped under the encoder key. -/
def wellFormedRecovery (cfg : AuthConfig) (ans : List (List Nat))
    (mk : List Nat) : Prop :=
  ∃ salt ek,
    salt.length = 32
    ∧ cfg.encryptedRecoveryEncoder
        = salt ++ fernetEncrypt (deriveStrongRecoveryKey ans.flatten salt) ek
    ∧ cfg.encryptedRecoveryKey = fernetEncrypt (bytesToNat ek) mk
    ∧ containsSeq markerBytes cfg.encryptedRecoveryEncoder = false
    ∧ ek.length < 256 ^ 8
    ∧ mk.length < 256 ^ 8

/-- Correct answers for the concrete enrolled configuration below. -/
def goodAnswers : List (List Nat) := [[97, 98]]

/-- The concrete recovery encoder key bytes of the fixture. -/
def goodEncoderKey : List Nat := [9]

/-- The concrete master key bytes of the fixture. -/
def goodMasterKeyBytes : List Nat := [7, 7]

/-- A concrete 32-byte recovery salt. -/
def recSalt32 : List Nat := List.replicate 32 0

/-- A configuration whose recovery path was enrolled for `goodAnswers`
wrapping `goodMasterKeyBytes`, built exactly as `_encrypt_with_questions`
and `setup_recovery_questions` build it. -/
def goodRecoveryCfg : AuthConfig :=
  { masterPasswordHash := []
    encryptedMasterKey := []
    encryptedRecoveryKey := fernetEncrypt (bytesToNat goodEncoderKey) goodMasterKeyBytes
    encryptedMasterPasswordEncoder := []
    encryptedRecoveryEncoder :=
      recSalt32
        ++ fernetEncrypt (deriveStrongRecoveryKey goodAnswers.flatten recSalt32) goodEncoderKey
    recoveryQuestions := []
    passwordHint := [] }

/-- A configuration whose stored recovery encoder bytes are corrupted (not
a whole valid token), so every recovery attempt fails. -/
def badRecoveryCfg : AuthConfig :=
  { goodRecoveryCfg with encryptedRecoveryEncoder := List.replicate 32 0 ++ [1, 2, 3] }

/-- A configuration with no recovery path: `_encrypt_with_questions`
stored 32 random bytes followed by `NO_RECOVERY_SETUP` (line 231). -/
def noRecoveryCfg : AuthConfig :=
  { goodRecoveryCfg with encryptedRecoveryEncoder := List.replicate 32 0 ++ markerBytes }

theorem recoverMasterKey_locked (cfg : AuthConfig) (st : List Nat)
    (now e : Nat) (ans : List (List Nat)) (h : isLockedOut now st = true) :
    recoverMasterKey cfg st now e ans
      = ⟨.err (.locked (getRemainingTime now st)), st, 0⟩ := by
  simp [recoverMasterKey, h]

theorem recoverMasterKey_ok (cfg : AuthConfig) (ans : List (List Nat))
    (mk : List Nat) (st : List Nat) (now e : Nat)
    (hwf : wellFormedRecovery cfg ans mk) (hnl : isLockedOut now st = false) :
    recoverMasterKey cfg st now e ans = ⟨.ok mk, [], 0⟩ := by
  obtain ⟨salt, ek, hs, henc, hkey, hmark, hek, hmk⟩ := hwf
  have h1 : cfg.encryptedRecoveryEncoder.take 32 = salt := by
    rw [henc, ← hs, List.take_left]
  have h2 : cfg.encryptedRecoveryEncoder.drop 32
      = fernetEncrypt (deriveStrongRecoveryKey ans.flatten salt) ek := by
    rw [henc, ← hs, List.drop_left]
  have h3 := fernetDecrypt_fernetEncrypt
    (deriveStrongRecoveryKey ans.flatten salt) ek hek
  have h4 : fernetDecrypt (bytesToNat ek) cfg.encryptedRecoveryKey = some mk := by
    rw [hkey]
    exact fernetDecrypt_fernetEncrypt _ _ hmk
  simp [recoverMasterKey, hnl, hmark, h1, h2, h3, h4, clearAttempts]

theorem getRemainingTime_le (now : Nat) (st : List Nat)
    (hpast : minT st ≤ now) :
    getRemainingTime now st ≤ lockoutTime := by
  unfold getRemainingTime
  split
  · simp [lockoutTime]
  · simp only [lockoutTime]
    omega

/-- C5 (amended): while locked out, `recover_master_key` fails with the
`Locked` condition carrying a remaining time that is at most 600 seconds —
but possibly exactly 0, because `get_remaining_time` measures from the
oldest RETAINED attempt rather than the oldest attempt inside the window —
and once the window has elapsed (the identifier is no longer locked), a
call with the correct answers succeeds with the master key and clears the
attempt history. -/
theorem c5_lockout_behavior (cfg : AuthConfig) (ans : List (List Nat))
    (mk : List Nat) (st : List Nat) (now nowLater e e' : Nat)
    (hwf : wellFormedRecovery cfg ans mk)
    (hpast : minT st ≤ now)
    (hlocked : isLockedOut now st = true)
    (hlater : isLockedOut nowLater st = false) :
    (recoverMasterKey cfg st now e ans).result
        = .err (.locked (getRemainingTime now st))
    ∧ getRemainingTime now st ≤ lockoutTime
    ∧ (recoverMasterKey cfg st nowLater e' ans).result = .ok mk
    ∧ (recoverMasterKey cfg st nowLater e' ans).attempts = [] := by
  rw [recoverMasterKey_locked cfg st now e ans hlocked,
    recoverMasterKey_ok cfg ans mk st nowLater e' hwf hlater]
  exact ⟨rfl, getRemainingTime_le now st hpast, rfl, rfl⟩

/-- Closed instance of `c5_lockout_behavior`: attempts at 0, 700, 701 and
702 lock the identifier at 703; at 1400 the window has elapsed and the
correct answers recover the master key and clear the history. -/
theorem c5_lockout_behavior_witness :
    (recoverMasterKey goodRecoveryCfg [0, 700, 701, 702] 703 0 goodAnswers).result
        = .err (.locked (getRemainingTime 703 [0, 700, 701, 702]))
    ∧ getRemainingTime 703 [0, 700, 701, 702] ≤ lockoutTime
    ∧ (recoverMasterKey goodRecoveryCfg [0, 700, 701, 702] 1400 0 goodAnswers).result
        = .ok goodMasterKeyBytes
    ∧ (recoverMasterKey goodRecoveryCfg [0, 700, 701, 702] 1400 0 goodAnswers).attempts
        = [] :=
  c5_lockout_behavior goodRecoveryCfg goodAnswers goodMasterKeyBytes
    [0, 700, 701, 702] 703 1400 0 0
    ⟨recSalt32, goodEncoderKey, by decide, rfl, rfl, by decide,
      by decide, by decide⟩
    (by decide) (by decide) (by decide)

/-- C5 refutation of the strict bound: a first failed attempt at time 0
followed by three failed attempts at 700-702 (all four retained) locks the
identifier at 703 — the three recent attempts are inside the window — yet
the `Locked` error carries remaining time 0, not a strictly positive one,
because `min(attempts)` picks the stale timestamp 0. -/
theorem c5_remaining_zero_counterexample :
    (recoverMasterKey badRecoveryCfg
      ((recoverMasterKey badRecoveryCfg
        ((recoverMasterKey badRecoveryCfg
          ((recoverMasterKey badRecoveryCfg [] 0 0 [[5]]).attempts)
          700 0 [[5]]).attempts)
        701 0 [[5]]).attempts)
      702 0 [[5]]).attempts = [0, 700, 701, 702]
    ∧ isLockedOut 703 [0, 700, 701, 702] = true
    ∧ (recoverMasterKey badRecoveryCfg [0, 700, 701, 702] 703 0 [[5]]).result
        = .err (.locked 0) := by decide

/-- C8 (amended): the enforced sleep of `recover_master_key` in one
formula — the 1-second floor (`time.sleep(min_delay - elapsed)`) is applied
exactly on failed attempts that passed the lockout gate; successful
attempts and lockout rejections return with no enforced delay at all. -/
theorem c8_delay_floor_formula :
    ∀ (cfg : AuthConfig) (st : List Nat) (now e : Nat) (ans : List (List Nat)),
      (recoverMasterKey cfg st now e ans).slept
        = if isLockedOut now st = false
              ∧ (recoverMasterKey cfg st now e ans).result.isOk = false
          then 1 - e else 0 := by
  intro cfg st now e ans
  by_cases h1 : isLockedOut now st
  · simp [recoverMasterKey, h1, RecResult.isOk]
  · have h1' : isLockedOut now st = false := by
      simpa using h1
    by_cases h2 : containsSeq markerBytes cfg.encryptedRecoveryEncoder
    · simp [recoverMasterKey, h1', h2, RecResult.isOk]
    · rcases h3 : fernetDecrypt
          (deriveStrongRecoveryKey ans.flatten (cfg.encryptedRecoveryEncoder.take 32))
          (cfg.encryptedRecoveryEncoder.drop 32) with _ | ek
      · simp [recoverMasterKey, h1', h2, h3, RecResult.isOk]
      · rcases h4 : fernetDecrypt (bytesToNat ek) cfg.encryptedRecoveryKey with _ | mk2
        · simp [recoverMasterKey, h1', h2, h3, h4, RecResult.isOk]
        · simp [recoverMasterKey, h1', h2, h3, h4, RecResult.isOk]

/-- C8 refutation of the 1-second floor on every attempt: a successful
recovery whose attempt body consumed 0 seconds returns with no sleep, so
the whole call takes 0 seconds of enforced wall-clock time, below the
claimed 1-second minimum. -/
theorem c8_fast_success_counterexample :
    (recoverMasterKey goodRecoveryCfg [] 0 0 goodAnswers).result
        = .ok goodMasterKeyBytes
    ∧ 0 + (recoverMasterKey goodRecoveryCfg [] 0 0 goodAnswers).slept < 1 := by
  have h := recoverMasterKey_ok goodRecoveryCfg goodAnswers goodMasterKeyBytes [] 0 0
    ⟨recSalt32, goodEncoderKey, by decide, rfl, rfl, by decide, by decide, by decide⟩
    (by decide)
  rw [h]
  exact ⟨rfl, by norm_num⟩

/-- One transition of the lockout state machine for a credential
identifier: recording an attempt at some instant, or the clear performed on
successful unlock. -/
inductive ProtStep where
  | attempt (t : Nat)
  | clear
deriving Repr, DecidableEq

/-- Apply one lockout transition. -/
def applyStep (s : ProtStep) (st : List Nat) : List Nat :=
  match s with
  | .attempt t => recordAttempt t st
  | .clear => clearAttempts st

/-- The lockout state reached from the initial (empty) history by a
sequence of transitions. -/
def runSteps (steps : List ProtStep) : List Nat :=
  steps.foldl (fun st s => applyStep s st) []

theorem length_recordAttempt_le (now : Nat) (st : List Nat)
    (h : st.length ≤ 2 * maxAttempts) :
    (recordAttempt now st).length ≤ 2 * maxAttempts := by
  simp only [recordAttempt]
  split
  · simp only [List.length_drop, List.length_append, List.length_cons,
      List.length_nil, maxAttempts]
    omega
  · simp only [List.length_append, List.length_cons, List.length_nil, maxAttempts] at *
    omega

theorem runSteps_length_le (steps : List ProtStep) :
    (runSteps steps).length ≤ 2 * maxAttempts := by
  have H : ∀ (l : List ProtStep) (st : List Nat), st.length ≤ 2 * maxAttempts →
      (l.foldl (fun st s => applyStep s st) st).length ≤ 2 * maxAttempts := by
    intro l
    induction l with
    | nil => intro st h; simpa using h
    | cons s rest ih =>
        intro st h
        apply ih
        cases s with
        | attempt t => exact length_recordAttempt_le t st h
        | clear => simp [applyStep, clearAttempts, maxAttempts]
  exact H steps [] (by simp [maxAttempts])

theorem recoverMasterKey_ok_clears (cfg : AuthConfig) (st : List Nat)
    (now e : Nat) (ans : List (List Nat)) (mk : List Nat)
    (h : (recoverMasterKey cfg st now e ans).result = .ok mk) :
    (recoverMasterKey cfg st now e ans).attempts = [] := by
  by_cases h1 : isLockedOut now st
  · simp [recoverMasterKey, h1] at h
  · have h1' : isLockedOut now st = false := by simpa using h1
    by_cases h2 : containsSeq markerBytes cfg.encryptedRecoveryEncoder
    · simp [recoverMasterKey, h1', h2] at h
    · rcases h3 : fernetDecrypt
          (deriveStrongRecoveryKey ans.flatten (cfg.encryptedRecoveryEncoder.take 32))
          (cfg.encryptedRecoveryEncoder.drop 32) with _ | ek
      · simp [recoverMasterKey, h1', h2, h3] at h
      · rcases h4 : fernetDecrypt (bytesToNat ek) cfg.encryptedRecoveryKey with _ | mk2
        · simp [recoverMasterKey, h1', h2, h3, h4] at h
        · simp [recoverMasterKey, h1', h2, h3, h4, clearAttempts]

/-- C9: for every reachable lockout state and every instant, (a) at most
2 x threshold = 6 attempt timestamps are retained, (b) the identifier is
locked exactly when at least threshold = 3 recorded attempts lie within
the 10-minute window, and (c) any successful `recover_master_key` call
leaves the identifier's attempt history empty. -/
theorem c9_lockout_invariants (steps : List ProtStep) (now : Nat) :
    (runSteps steps).length ≤ 2 * maxAttempts
    ∧ (isLockedOut now (runSteps steps) = true
        ↔ maxAttempts ≤ ((runSteps steps).filter
            (fun t => decide (now - t < lockoutTime))).length)
    ∧ (∀ (cfg : AuthConfig) (e : Nat) (ans : List (List Nat)) (mk : List Nat),
        (recoverMasterKey cfg (runSteps steps) now e ans).result = .ok mk
          → (recoverMasterKey cfg (runSteps steps) now e ans).attempts = []) :=
  ⟨runSteps_length_le steps,
    by simp [isLockedOut],
    fun cfg e ans mk h => recoverMasterKey_ok_clears cfg (runSteps steps) now e ans mk h⟩

/-- Closed instance of `c9_lockout_invariants` after two recorded attempts,
with the successful-unlock clause discharged by an actual successful
recovery on the enrolled fixture configuration. -/
theorem c9_lockout_invariants_witness :
    (runSteps [ProtStep.attempt 0, ProtStep.attempt 1]).length ≤ 2 * maxAttempts
    ∧ (isLockedOut 3 (runSteps [ProtStep.attempt 0, ProtStep.attempt 1]) = true
        ↔ maxAttempts ≤ ((runSteps [ProtStep.attempt 0, ProtStep.attempt 1]).filter
            (fun t => decide (3 - t < lockoutTime))).length)
    ∧ (recoverMasterKey goodRecoveryCfg
        (runSteps [ProtStep.attempt 0, ProtStep.attempt 1]) 3 0 goodAnswers).attempts
        = [] := by
  have H := c9_lockout_invariants [ProtStep.attempt 0, ProtStep.attempt 1] 3
  refine ⟨H.1, H.2.1, H.2.2 goodRecoveryCfg 0 goodAnswers goodMasterKeyBytes ?_⟩
  have h := recoverMasterKey_ok goodRecoveryCfg goodAnswers goodMasterKeyBytes
    (runSteps [ProtStep.attempt 0, ProtStep.attempt 1]) 3 0
    ⟨recSalt32, goodEncoderKey, by decide, rfl, rfl, by decide, by decide, by decide⟩
    (by decide)
  rw [h]

/-- C10: with the `NO_RECOVERY_SETUP` marker stored and the identifier not
locked, each `recover_master_key` call records exactly two attempt
timestamps (the not-configured branch records one, then the generic
failure handler records another) and fails with the generic error; hence
two such calls from a clean history suffice to lock the identifier for the
whole window that starts at the first call. -/
theorem c10_no_recovery_double_record (st : List Nat) (now e t1 t2 t e1 e2 : Nat)
    (ans ans1 ans2 : List (List Nat))
    (hnl : isLockedOut now st = false)
    (h12 : t1 ≤ t2) (h2t : t2 ≤ t) (hwin : t < t1 + lockoutTime) :
    (recoverMasterKey noRecoveryCfg st now e ans).result = .err .badAnswers
    ∧ (recoverMasterKey noRecoveryCfg st now e ans).attempts
        = recordAttempt now (recordAttempt now st)
    ∧ isLockedOut t ((recoverMasterKey noRecoveryCfg
        ((recoverMasterKey noRecoveryCfg [] t1 e1 ans1).attempts) t2 e2 ans2).attempts)
        = true := by
  have hmark : containsSeq markerBytes noRecoveryCfg.encryptedRecoveryEncoder = true := by
    decide
  refine ⟨by simp [recoverMasterKey, hnl, hmark], by simp [recoverMasterKey, hnl, hmark], ?_⟩
  have hc1 : (recoverMasterKey noRecoveryCfg [] t1 e1 ans1).attempts = [t1, t1] := by
    have hnl1 : isLockedOut t1 [] = false := rfl
    simp [recoverMasterKey, hnl1, hmark, recordAttempt, maxAttempts]
  have hnl2 : isLockedOut t2 [t1, t1] = false := by
    simp [isLockedOut, maxAttempts]
    have := List.length_filter_le (fun t => decide (t2 - t < lockoutTime)) [t1, t1]
    simp at this
    omega
  have hc2 : (recoverMasterKey noRecoveryCfg [t1, t1] t2 e2 ans2).attempts
      = [t1, t1, t2, t2] := by
    simp [recoverMasterKey, hnl2, hmark, recordAttempt, maxAttempts]
  rw [hc1, hc2]
  have hA : (t - t1 < lockoutTime) := by omega
  have hB : (t - t2 < lockoutTime) := by omega
  simp [isLockedOut, List.filter, hA, hB, maxAttempts]

/-- Closed instance of `c10_no_recovery_double_record` at concrete times
0, 10, 20 and a check instant 30 inside the window. -/
theorem c10_no_recovery_double_record_witness :
    (recoverMasterKey noRecoveryCfg [] 0 0 [[1]]).result = .err .badAnswers
    ∧ (recoverMasterKey noRecoveryCfg [] 0 0 [[1]]).attempts
        = recordAttempt 0 (recordAttempt 0 [])
    ∧ isLockedOut 30 ((recoverMasterKey noRecoveryCfg
        ((recoverMasterKey noRecoveryCfg [] 10 0 [[1]]).attempts) 20 0 [[1]]).attempts)
        = true :=
  c10_no_recovery_double_record [] 0 0 10 20 30 0 0 [[1]] [[1]] [[1]]
    (by decide) (by decide) (by decide) (by decide)

/-- C6 (amended): verification lowercases the supplied answer while
enrollment hashed the raw answer, so re-supplying exactly the enrolled
answers succeeds precisely when every enrolled answer is unchanged by
ASCII lowercasing; under that proviso `verify_recovery_answers` returns
`True`. -/
theorem c6_verify_enrolled_lowercase (cfg : AuthConfig) (l : List QSetup)
    (st : List Nat) (now : Nat)
    (hq : cfg.recoveryQuestions = setupRecoveryQuestions l)
    (hnl : isLockedOut now st = false)
    (hlower : ∀ qa ∈ l, lowerBytes qa.answer = qa.answer) :
    (verifyRecoveryAnswers cfg st now
      (l.map (fun qa => (qa.question, qa.answer)))).1 = true := by
  have hlen : (l.map (fun qa => (qa.question, qa.answer))).length
      = cfg.recoveryQuestions.length := by
    simp [hq, setupRecoveryQuestions]
  have hall : ∀ (l' : List QSetup), (∀ qa ∈ l', lowerBytes qa.answer = qa.answer) →
      ((l'.map (fun qa => (qa.question, qa.answer))).zip (setupRecoveryQuestions l')).all
        (fun aq => bcryptCheckpw (lowerBytes aq.1.2 ++ aq.2.salt) aq.2.answerHash)
        = true := by
    intro l'
    induction l' with
    | nil => intro _; rfl
    | cons qa rest ih =>
        intro hl
        have h1 : bcryptCheckpw (lowerBytes qa.answer ++ qa.answerSalt)
            (bcryptHashpw (qa.answer ++ qa.answerSalt) qa.bcryptSalt)
            = true := by
          simp only [bcryptCheckpw_hashpw, hl qa (by simp)]
          simp
        have h2 := ih (fun x hx => hl x (by simp [hx]))
        simp only [setupRecoveryQuestions] at h2 ⊢
        rw [List.map_cons, List.map_cons, List.zip_cons_cons, List.all_cons,
          Bool.and_eq_true]
        refine ⟨?_, h2⟩
        simpa [mkQRecord] using h1
  simp only [verifyRecoveryAnswers, hq, hnl, setupRecoveryQuestions, List.length_map,
    ne_eq, not_true_eq_false, Bool.false_eq_true, if_false]
  rw [← setupRecoveryQuestions, hall l hlower]
  simp

/-- The question list enrolled with the single mixed-case answer `"A"`. -/
def upperQSetup : QSetup := ⟨[81], [65], List.replicate 16 0, 3⟩

/-- A configuration whose only recovery question was enrolled with the
uppercase answer `"A"`. -/
def upperCfg : AuthConfig :=
  { goodRecoveryCfg with recoveryQuestions := setupRecoveryQuestions [upperQSetup] }

/-- C6 refutation as stated: enrolling the answer `"A"` (byte 65) and then
verifying with exactly the same string returns `False`, because
verification hashes the lowercased `"a"` (byte 97) against the stored
digest of `"A"`. -/
theorem c6_same_answer_counterexample :
    (verifyRecoveryAnswers upperCfg [] 0 [([81], [65])]).1 = false := by
  decide

/-- Closed instance of `c6_verify_enrolled_lowercase` for an enrolled
all-lowercase answer `"a"`. -/
theorem c6_verify_enrolled_lowercase_witness :
    (verifyRecoveryAnswers
      { goodRecoveryCfg with
          recoveryQuestions := setupRecoveryQuestions [⟨[81], [97], List.replicate 16 0, 3⟩] }
      [] 0
      ([(⟨[81], [97], List.replicate 16 0, 3⟩ : QSetup)].map
        (fun qa => (qa.question, qa.answer)))).1 = true :=
  c6_verify_enrolled_lowercase _ [⟨[81], [97], List.replicate 16 0, 3⟩] [] 0
    rfl (by decide) (by decide)

/-- A password path as enrolled by `create_master_password` /
`change_master_password`: fresh 32-byte salt, encoder key wrapped under the
password-derived key, master key wrapped under the encoder key, bcrypt
password hash. -/
def wellFormedPassword (cfg : AuthConfig) (pw mk : List Nat) : Prop :=
  ∃ salt ek bs,
    salt.length = 32
    ∧ cfg.masterPasswordHash = bcryptHashpw pw bs
    ∧ cfg.encryptedMasterPasswordEncoder
        = salt ++ fernetEncrypt (deriveKeyFromPassword pw salt) ek
    ∧ cfg.encryptedMasterKey = fernetEncrypt (bytesToNat ek) mk
    ∧ ek.length < 256 ^ 8
    ∧ mk.length < 256 ^ 8

theorem getMasterKey_of_wellFormed (cfg : AuthConfig) (pw mk : List Nat)
    (h : wellFormedPassword cfg pw mk) : getMasterKey cfg pw = .ok mk := by
  obtain ⟨salt, ek, bs, hs, hhash, henc, hkey, hek, hmk⟩ := h
  have hb : bcryptCheckpw pw cfg.masterPasswordHash = true := by
    rw [hhash, bcryptCheckpw_hashpw]
    simp
  have h1 : cfg.encryptedMasterPasswordEncoder.take 32 = salt := by
    rw [henc, ← hs, List.take_left]
  have h2 : cfg.encryptedMasterPasswordEncoder.drop 32
      = fernetEncrypt (deriveKeyFromPassword pw salt) ek := by
    rw [henc, ← hs, List.drop_left]
  have h3 := fernetDecrypt_fernetEncrypt (deriveKeyFromPassword pw salt) ek hek
  have h4 : fernetDecrypt (bytesToNat ek) cfg.encryptedMasterKey = some mk := by
    rw [hkey]
    exact fernetDecrypt_fernetEncrypt _ _ hmk
  simp [getMasterKey, hb, h1, h2, h3, h4]

/-- C7: `change_master_password` replaces only the password-path artifacts
(verification hash, wrapped master key, wrapped encoder key with its salt,
plus the hint): the recovery-path artifacts are untouched, unlocking with
the new password returns the identical master-key bytes, and the old
password is rejected. -/
theorem c7_change_password_frame (cfg : AuthConfig)
    (oldPw newPw newHint mk newEk newSalt : List Nat) (newBSalt : Nat)
    (hwf : wellFormedPassword cfg oldPw mk)
    (hne : oldPw ≠ newPw)
    (hsalt : newSalt.length = 32)
    (hek : newEk.length < 256 ^ 8) :
    ∃ cfg', changeMasterPassword cfg oldPw newPw newHint newEk newSalt newBSalt
        = .ok (cfg', mk)
      ∧ cfg'.encryptedRecoveryKey = cfg.encryptedRecoveryKey
      ∧ cfg'.encryptedRecoveryEncoder = cfg.encryptedRecoveryEncoder
      ∧ cfg'.recoveryQuestions = cfg.recoveryQuestions
      ∧ getMasterKey cfg' newPw = .ok mk
      ∧ getMasterKey cfg' oldPw = .error "ValueError: wrong master password" := by
  have hget := getMasterKey_of_wellFormed cfg oldPw mk hwf
  obtain ⟨salt, ek, bs, hs, hhash, henc, hkey, hekL, hmkL⟩ := hwf
  refine ⟨{ cfg with
      masterPasswordHash := bcryptHashpw newPw newBSalt
      encryptedMasterKey := fernetEncrypt (bytesToNat newEk) mk
      encryptedMasterPasswordEncoder :=
        newSalt ++ fernetEncrypt (deriveKeyFromPassword newPw newSalt) newEk
      passwordHint := newHint }, ?_, rfl, rfl, rfl, ?_, ?_⟩
  · simp only [changeMasterPassword, hget]
  · exact getMasterKey_of_wellFormed _ newPw mk
      ⟨newSalt, newEk, newBSalt, hsalt, rfl, rfl, rfl, hek, hmkL⟩
  · have hb : bcryptCheckpw oldPw (bcryptHashpw newPw newBSalt) = false := by
      rw [bcryptCheckpw_hashpw]
      simp [hne]
      intro hc
      exact absurd hc.symm hne
    simp [getMasterKey, hb]

/-- Closed instance of `c7_change_password_frame` on a concrete enrolled
configuration, old password `[1]`, new password `[2]`. -/
theorem c7_change_password_frame_witness :
    ∃ cfg', changeMasterPassword
        { masterPasswordHash := bcryptHashpw [1] 3
          encryptedMasterKey := fernetEncrypt (bytesToNat [9]) [7, 7]
          encryptedRecoveryKey := [4]
          encryptedMasterPasswordEncoder :=
            List.replicate 32 0
              ++ fernetEncrypt (deriveKeyFromPassword [1] (List.replicate 32 0)) [9]
          encryptedRecoveryEncoder := [5]
          recoveryQuestions := []
          passwordHint := [] }
        [1] [2] [] [11] (List.replicate 32 1) 6
        = .ok (cfg', [7, 7])
      ∧ cfg'.encryptedRecoveryKey = [4]
      ∧ cfg'.encryptedRecoveryEncoder = [5]
      ∧ cfg'.recoveryQuestions = []
      ∧ getMasterKey cfg' [2] = .ok [7, 7]
      ∧ getMasterKey cfg' [1] = .error "ValueError: wrong master password" :=
  c7_change_password_frame _ [1] [2] [] [7, 7] [11] (List.replicate 32 1) 6
    ⟨List.replicate 32 0, [9], 3, by decide, rfl, rfl, rfl, by decide, by decide⟩
    (by decide) (by decide) (by decide)

/-! Persisted tree and transactions, from src/vault_core.py
(`SecureVaultCore` and `VaultTransaction`).

JSON objects are modelled as tagged byte strings: the raw filesystem dict
(keys `files`/`folders`/...) serializes with leading tag 0, the checksummed
payload dict (keys `data`/`checksum`/`timestamp`/`version`) with leading
tag 1.  A parser expecting one shape fails on the other, which models
`json.loads` succeeding but the subsequent `payload['data']` access raising
`KeyError`. -/

/-- The in-memory directory tree, reduced to the id lists the claims
measure (file count, root folder). -/
structure Tree where
  files : List Nat
  folders : List Nat
deriving Repr, DecidableEq

/-- `_create_default_filesystem` (src/vault_core.py lines 611-629): no
files, only the root folder. -/
def defaultTree : Tree := ⟨[], [0]⟩

/-- Serialization of the raw filesystem dict, `json.dumps(self.filesystem)`
as written by `VaultTransaction._create_backup` (line 145); tag 0. -/
def encodeTree (t : Tree) : List Nat :=
  0 :: natLEBytes 8 t.files.length ++ t.files ++ t.folders

/-- Deserialization of a tree (`json.loads` of a filesystem dict): any
tag-0 object decodes; everything else fails. -/
def parseTree (b : List Nat) : Option Tree :=
  match b with
  | 0 :: rest =>
      some ⟨(rest.drop 8).take (bytesToNat (rest.take 8)),
            (rest.drop 8).drop (bytesToNat (rest.take 8))⟩
  | _ => none

/-- The checksummed persistence record `_save_filesystem` builds (lines
317-331): tree bytes, their SHA-256 digest, format version (2 models
the string `'2.0'`). -/
structure Payload where
  data : List Nat
  checksum : List Nat
  version : Nat
deriving Repr, DecidableEq

/-- Serialization of the payload dict; tag 1. -/
def encodePayload (p : Payload) : List Nat :=
  1 :: p.version :: natLEBytes 8 p.data.length ++ p.data ++ p.checksum

/-- Deserialization of a payload object: a tag-0 object (a raw tree
backup) fails here, modelling the `KeyError: 'data'` that
`_restore_from_backup` raises on it. -/
def parsePayload (b : List Nat) : Option Payload :=
  match b with
  | 1 :: v :: rest =>
      some ⟨(rest.drop 8).take (bytesToNat (rest.take 8)),
            (rest.drop 8).drop (bytesToNat (rest.take 8)), v⟩
  | _ => none

/-- The encrypted bytes `_save_filesystem` writes for tree `t` under master
key `mk` (and that `_create_filesystem_backup` copies into the backup
directory). -/
def savedFilesystemBytes (mk : Nat) (t : Tree) : List Nat :=
  fernetEncrypt mk
    (encodePayload ⟨encodeTree t, sha256Model (encodeTree t), 2⟩)

/-- Model of `_restore_from_backup` (src/vault_core.py lines 380-410):
decrypt the backup under the master key, parse the payload object, verify
the SHA-256 checksum of the data bytes, decode the tree; any failure
propagates to the caller.  (No `version` check happens here — only
`_load_filesystem` checks it.) -/
def restoreFromBackup (mk : Nat) (b : List Nat) : Except String Tree :=
  match fernetDecrypt mk b with
  | none => .error "InvalidToken"
  | some pt =>
      match parsePayload pt with
      | none => .error "KeyError: data"
      | some pl =>
          if sha256Model pl.data = pl.checksum then
            match parseTree pl.data with
            | none => .error "JSONDecodeError"
            | some t => .ok t
          else .error "ValueError: checksum"

/-- Outcome of opening the vault: the resulting in-memory tree, whether the
unreadable primary file was quarantined (`_backup_corrupted_filesystem`),
and whether a backup restore supplied the tree. -/
structure LoadOutcome where
  tree : Tree
  quarantined : Bool
  restoredFromBackup : Bool
deriving Repr, DecidableEq

/-- Model of `_load_filesystem` (src/vault_core.py lines 412-480).

The primary read goes through `_atomic_file_operation(path, read_operation,
'rb')` (lines 273-311): that helper creates a NEW temporary file, opens it
write-only (`os.fdopen(fd, 'wb')`) and hands it to the callback, so the
callback's `temp_file.read()` raises `io.UnsupportedOperation` — a
`ValueError` subclass — whenever the filesystem file exists and is
non-empty (and had the read returned, the callback itself raises
`ValueError` on the empty temp file).  Every such load therefore lands in
the `except (json.JSONDecodeError, ValueError, KeyError)` arm: quarantine
the primary file, then try to restore the single most recent
`filesystem_backup_` file (list sorted by mtime descending, entry `[0]`),
falling back to `_create_default_filesystem` if that restore raises.  A
missing or empty primary file goes straight to the default tree with no
quarantine.  `backups` is ordered most-recent-first. -/
def loadFilesystem (mk : Nat) (file : Option (List Nat))
    (backups : List (List Nat)) : LoadOutcome :=
  match file with
  | none => ⟨defaultTree, false, false⟩
  | some bytes =>
      if bytes.length = 0 then ⟨defaultTree, false, false⟩
      else
        match backups with
        | [] => ⟨defaultTree, true, false⟩
        | b :: _ =>
            match restoreFromBackup mk b with
            | .ok t => ⟨t, true, true⟩
            | .error _ => ⟨defaultTree, true, false⟩

/-- A staged transaction operation.  Only `add_file` is modelled: it is the
only staged operation whose executor (`_transactional_add_file`) exists on
`SecureVaultCore`; `srcExists` says whether the source path exists, `fid`
is the fresh file id. -/
inductive VaultOp where
  | addFile (srcExists : Bool) (fid : Nat)
deriving Repr, DecidableEq

/-- Model of `_transactional_add_file` (src/vault_core.py lines 486-531)
at tree level: fail with `FileNotFoundError` if the source is missing,
otherwise append the new file id. -/
def execOp (op : VaultOp) (t : Tree) : Except String Tree :=
  match op with
  | .addFile ex fid =>
      if ex then .ok ⟨t.files ++ [fid], t.folders⟩
      else .error "FileNotFoundError"

/-- Execute staged operations in order; on the first failure return its
zero-based index together with the tree state already mutated by the
preceding operations (the in-memory tree keeps those effects). -/
def execOps (ops : List VaultOp) (t : Tree) (idx : Nat) :
    Except (Nat × Tree) Tree :=
  match ops with
  | [] => .ok t
  | op :: rest =>
      match execOp op t with
      | .ok t' => execOps rest t' (idx + 1)
      | .error _ => .error (idx, t)

/-- Transaction lifecycle states of `VaultTransaction._state`. -/
inductive TxPhase where
  | committed
  | failed
deriving Repr, DecidableEq

/-- Observable outcome of `VaultTransaction.commit`: the in-memory tree
afterwards, the transaction backup files left on disk, the final state,
and the index of the failing staged operation named by the raised
`TransactionError` (if any). -/
structure CommitOutcome where
  tree : Tree
  txBackups : List (List Nat)
  phase : TxPhase
  failedOp : Option Nat
deriving Repr, DecidableEq

/-- Model of `VaultTransaction.commit` (src/vault_core.py lines 79-110)
with `_create_backup` (135-156) and `_rollback` (158-176).

`_create_backup` encrypts `json.dumps(self.vault.filesystem)` — the RAW
tree object, not the checksummed payload format — and records the backup
file.  Operations then run in staged order.  On the first failure,
`_rollback` calls `_restore_from_backup` on that backup; since the backup
is a raw tree object, the `payload['data']` access raises `KeyError`,
which `_rollback` swallows (its `except` at line 175), ALSO skipping the
backup-file removal loop that follows the restore; the in-memory tree
keeps the partial mutations, `_state` becomes `failed`, and
`TransactionError` names the failing operation.  On success the
transaction backup file is simply left behind and the state is
`committed`. -/
def commit (mk : Nat) (t0 : Tree) (ops : List VaultOp) : CommitOutcome :=
  let backup := fernetEncrypt mk (encodeTree t0)
  match execOps ops t0 0 with
  | .ok t' => ⟨t', [backup], .committed, none⟩
  | .error (i, tPartial) =>
      match restoreFromBackup mk backup with
      | .ok t'' => ⟨t'', [], .failed, some i⟩
      | .error _ => ⟨tPartial, [backup], .failed, some i⟩


theorem parseTree_cons_zero (rest : List Nat) :
    parseTree (0 :: rest)
      = some ⟨(rest.drop 8).take (bytesToNat (rest.take 8)),
              (rest.drop 8).drop (bytesToNat (rest.take 8))⟩ := rfl

theorem parsePayload_cons_one (v : Nat) (rest : List Nat) :
    parsePayload (1 :: v :: rest)
      = some ⟨(rest.drop 8).take (bytesToNat (rest.take 8)),
              (rest.drop 8).drop (bytesToNat (rest.take 8)), v⟩ := rfl

theorem parseTree_encodeTree (t : Tree) (h : t.files.length < 256 ^ 8) :
    parseTree (encodeTree t) = some t := by
  have h8 : (natLEBytes 8 t.files.length).length = 8 := length_natLEBytes 8 _
  have hassoc : encodeTree t
      = 0 :: (natLEBytes 8 t.files.length ++ (t.files ++ t.folders)) := by
    simp [encodeTree, List.append_assoc]
  have htake : (natLEBytes 8 t.files.length ++ (t.files ++ t.folders)).take 8
      = natLEBytes 8 t.files.length := by
    rw [List.take_append_of_le_length (by omega), List.take_of_length_le (by omega)]
  have hdrop : (natLEBytes 8 t.files.length ++ (t.files ++ t.folders)).drop 8
      = t.files ++ t.folders := by
    have hd := List.drop_left (natLEBytes 8 t.files.length) (t.files ++ t.folders)
    rw [h8] at hd
    exact hd
  rw [hassoc, parseTree_cons_zero, htake, hdrop, bytesToNat_natLEBytes _ _ h,
    List.take_left, List.drop_left]

theorem parsePayload_encodePayload (p : Payload) (h : p.data.length < 256 ^ 8) :
    parsePayload (encodePayload p) = some p := by
  have h8 : (natLEBytes 8 p.data.length).length = 8 := length_natLEBytes 8 _
  have hassoc : encodePayload p
      = 1 :: p.version :: (natLEBytes 8 p.data.length ++ (p.data ++ p.checksum)) := by
    simp [encodePayload, List.append_assoc]
  have htake : (natLEBytes 8 p.data.length ++ (p.data ++ p.checksum)).take 8
      = natLEBytes 8 p.data.length := by
    rw [List.take_append_of_le_length (by omega), List.take_of_length_le (by omega)]
  have hdrop : (natLEBytes 8 p.data.length ++ (p.data ++ p.checksum)).drop 8
      = p.data ++ p.checksum := by
    have hd := List.drop_left (natLEBytes 8 p.data.length) (p.data ++ p.checksum)
    rw [h8] at hd
    exact hd
  rw [hassoc, parsePayload_cons_one, htake, hdrop, bytesToNat_natLEBytes _ _ h,
    List.take_left, List.drop_left]

theorem parsePayload_encodeTree (t : Tree) :
    parsePayload (encodeTree t) = none := rfl

theorem restoreFromBackup_saved (mk : Nat) (t : Tree)
    (hf : t.files.length < 256 ^ 8)
    (hT : (encodeTree t).length < 256 ^ 8)
    (hP : (encodePayload ⟨encodeTree t, sha256Model (encodeTree t), 2⟩).length < 256 ^ 8) :
    restoreFromBackup mk (savedFilesystemBytes mk t) = .ok t := by
  have h1 := fernetDecrypt_fernetEncrypt mk
    (encodePayload ⟨encodeTree t, sha256Model (encodeTree t), 2⟩) hP
  have h2 := parsePayload_encodePayload
    ⟨encodeTree t, sha256Model (encodeTree t), 2⟩ hT
  simp only [restoreFromBackup, savedFilesystemBytes, h1, h2,
    parseTree_encodeTree t hf]
  simp

theorem restoreFromBackup_rawTree (mk : Nat) (t : Tree)
    (h : (encodeTree t).length < 256 ^ 8) :
    restoreFromBackup mk (fernetEncrypt mk (encodeTree t))
      = .error "KeyError: data" := by
  simp only [restoreFromBackup, fernetDecrypt_fernetEncrypt mk (encodeTree t) h,
    parsePayload_encodeTree]

/-- C2 (amended): for every non-empty persisted tree file — corrupted or
not, since the primary read itself always fails with a `ValueError`-class
error — reopening the vault quarantines the file, then attempts to restore
the single most recent backup; the fresh default tree (root folder only)
appears exactly when there is no backup or the most recent backup fails to
restore: older usable backups are never consulted.  The load is total
(every exception is caught), so it never crashes. -/
theorem c2_load_quarantines_and_restores (mk : Nat) (bytes : List Nat)
    (backups : List (List Nat)) (hne : bytes ≠ []) :
    (loadFilesystem mk (some bytes) backups).quarantined = true
    ∧ (∀ b rest t, backups = b :: rest → restoreFromBackup mk b = .ok t →
        (loadFilesystem mk (some bytes) backups).tree = t)
    ∧ ((backups = []
          ∨ ∃ b rest e, backups = b :: rest ∧ restoreFromBackup mk b = .error e) →
        (loadFilesystem mk (some bytes) backups).tree = defaultTree) := by
  have hlen : ¬ bytes.length = 0 := by
    intro hz
    exact hne (List.eq_nil_of_length_eq_zero hz)
  refine ⟨?_, ?_, ?_⟩
  · cases backups with
    | nil => simp [loadFilesystem, hlen]
    | cons b rest =>
        cases hres : restoreFromBackup mk b with
        | ok t => simp [loadFilesystem, hlen, hres]
        | error e => simp [loadFilesystem, hlen, hres]
  · intro b rest t hb hres
    subst hb
    simp [loadFilesystem, hlen, hres]
  · intro hcase
    rcases hcase with hnil | ⟨b, rest, e, hb, hres⟩
    · subst hnil
      simp [loadFilesystem, hlen]
    · subst hb
      simp [loadFilesystem, hlen, hres]

/-- Closed instance of `c2_load_quarantines_and_restores`: a 1-byte
(corrupt) primary file with a single good backup is quarantined and the
backup's tree is restored. -/
theorem c2_load_quarantines_and_restores_witness :
    (loadFilesystem 5 (some [1]) [savedFilesystemBytes 5 ⟨[42], [0]⟩]).quarantined
        = true
    ∧ (loadFilesystem 5 (some [1]) [savedFilesystemBytes 5 ⟨[42], [0]⟩]).tree
        = ⟨[42], [0]⟩ := by
  have H := c2_load_quarantines_and_restores 5 [1]
    [savedFilesystemBytes 5 ⟨[42], [0]⟩] (by decide)
  refine ⟨H.1, H.2.1 _ [] ⟨[42], [0]⟩ rfl ?_⟩
  exact restoreFromBackup_saved 5 ⟨[42], [0]⟩ (by decide) (by decide) (by decide)

/-- C2 refutation of the claim as stated: with a corrupt most recent
backup and a perfectly usable older backup, reopening yields the fresh
default tree even though a usable backup exists — the code only ever tries
the most recent one. -/
theorem c2_skips_older_usable_backup_counterexample :
    (loadFilesystem 5 (some [1]) [[9, 9, 9], savedFilesystemBytes 5 ⟨[42], [0]⟩]).tree
        = defaultTree
    ∧ restoreFromBackup 5 (savedFilesystemBytes 5 ⟨[42], [0]⟩) = .ok ⟨[42], [0]⟩
    ∧ (⟨[42], [0]⟩ : Tree) ≠ defaultTree := by
  refine ⟨?_, restoreFromBackup_saved 5 ⟨[42], [0]⟩ (by decide) (by decide) (by decide),
    by decide⟩
  have hdec : fernetDecrypt 5 [9, 9, 9] = none := by decide
  have hres : restoreFromBackup 5 ([9, 9, 9] : List Nat)
      = .error "InvalidToken" := by
    simp [restoreFromBackup, hdec]
  simp [loadFilesystem, hres]

theorem commit_failure_keeps_partial (mk : Nat) (t0 : Tree) (ops : List VaultOp)
    (i : Nat) (tp : Tree)
    (h8 : (encodeTree t0).length < 256 ^ 8)
    (hex : execOps ops t0 0 = .error (i, tp)) :
    commit mk t0 ops
      = ⟨tp, [fernetEncrypt mk (encodeTree t0)], .failed, some i⟩ := by
  simp only [commit, hex, restoreFromBackup_rawTree mk t0 h8]

/-- C3: the claim asserts that a failing staged operation rolls the
in-memory tree back to its pre-commit state.  The code cannot:
`_create_backup` wrote the RAW tree JSON while `_restore_from_backup`
expects the checksummed payload object, so the restore raises
`KeyError('data')`, `_rollback` swallows it (also leaving the transaction
backup file behind), and the tree keeps the partial mutations.  Evaluated
at three staged adds whose second names a missing source: afterwards the
tree holds one file (the claim demands zero), the state is `failed` and
the raised `TransactionError` names the second operation. -/
theorem c3_failed_commit_keeps_partial_tree :
    commit 5 defaultTree
        [VaultOp.addFile true 1, VaultOp.addFile false 2, VaultOp.addFile true 3]
      = ⟨⟨[1], [0]⟩, [fernetEncrypt 5 (encodeTree defaultTree)], .failed, some 1⟩ :=
  commit_failure_keeps_partial 5 defaultTree
    [VaultOp.addFile true 1, VaultOp.addFile false 2, VaultOp.addFile true 3]
    1 ⟨[1], [0]⟩ (by decide) rfl

end TheArch
